import Mathlib

/-!
Shallow embedding of the script-section parser of the video-forge backend
(`backend/app/apis/script_generator/__init__.py`): the primary marker-based
parser `parse_script_sections`, the heuristic `fallback_parse_script`, and the
section-type normalization table `section_type_map`.  Strings are modelled by
Lean `String` viewed as its list of characters; Python string primitives
(`strip`, `split`, `join`, `upper`, `lower`, `startswith`, `endswith`) are
modelled by executable functions below.  Case mapping is the ASCII mapping,
which agrees with CPython on the ASCII text the parser manipulates.
-/

/-- Model of Python `s.strip()` on the character list: drop whitespace from
both ends. -/
def stripList (l : List Char) : List Char :=
  (l.dropWhile Char.isWhitespace).rdropWhile Char.isWhitespace

/-- Model of Python `s.strip()`. -/
def pyStrip (s : String) : String := ⟨stripList s.data⟩

/-- Model of Python `s.strip("#")`: drop hash characters from both ends. -/
def pyStripHash (s : String) : String :=
  ⟨(s.data.dropWhile (fun c => c = '#')).rdropWhile (fun c => c = '#')⟩

/-- Model of Python `s.lstrip("-")`: drop leading dash characters. -/
def pyLstripDash (s : String) : String := ⟨s.data.dropWhile (fun c => c = '-')⟩

/-- Model of Python `s.upper()` (ASCII case mapping). -/
def pyUpper (s : String) : String := ⟨s.data.map Char.toUpper⟩

/-- Model of Python `s.lower()` (ASCII case mapping). -/
def pyLower (s : String) : String := ⟨s.data.map Char.toLower⟩

/-- Model of Python `s.startswith(p)`. -/
def pyStartsWith (s p : String) : Bool := p.data.isPrefixOf s.data

/-- Model of Python `s.endswith(p)`. -/
def pyEndsWith (s p : String) : Bool := p.data.isSuffixOf s.data

/-- Split a character list at every occurrence of the separator; models
Python `str.split` with a one-character separator (so splitting the empty
string yields one empty piece). -/
def splitChar (sep : Char) : List Char → List (List Char)
  | [] => [[]]
  | c :: cs =>
    if c = sep then [] :: splitChar sep cs
    else
      match splitChar sep cs with
      | [] => [[c]]
      | piece :: rest => (c :: piece) :: rest

/-- Model of Python `script_content.split("\n")`. -/
def pySplitNL (s : String) : List String := (splitChar '\n' s.data).map (fun l => ⟨l⟩)

/-- Model of Python `"\n".join(lines)` on character lists. -/
def joinNLData : List (List Char) → List Char
  | [] => []
  | l :: ls =>
    match ls with
    | [] => l
    | _ :: _ => l ++ '\n' :: joinNLData ls

/-- Model of Python `"\n".join(lines)`. -/
def joinNL (ls : List String) : String := ⟨joinNLData (ls.map String.data)⟩

/-- Substring test: does `pat` occur contiguously inside `hay`? -/
def containsSub (hay pat : List Char) : Bool :=
  match hay with
  | [] => pat.isEmpty
  | _ :: rest => pat.isPrefixOf hay || containsSub rest pat

/-- Model of `sub in s` / a successful `re.search` for a literal pattern. -/
def pyContains (s sub : String) : Bool := containsSub s.data sub.data

/-- One parsed section: the Python dict with keys `type`, `content` and the
optional keys `duration` and `b_roll`; an absent key is `none`. -/
structure PSection where
  type : String
  content : String
  duration : Option String := none
  b_roll : Option (List String) := none
deriving DecidableEq, Repr

/-- Python truthiness of an optional string: `None` and `""` are falsy. -/
def optTruthy : Option String → Bool
  | none => false
  | some s => !(s == "")

/-- The literal `section_type_map` dict of `parse_script_sections`. -/
def section_type_map : List (String × String) :=
  [("HOOK", "hook"), ("INTRO", "intro"), ("INTRODUCTION", "intro"),
   ("MAIN", "main_content"), ("MAIN_CONTENT", "main_content"),
   ("MAIN_1", "main_content_1"), ("MAIN_2", "main_content_2"),
   ("MAIN_3", "main_content_3"), ("MAIN_4", "main_content_4"),
   ("MAIN_5", "main_content_5"),
   ("SEGMENT_1", "main_content_1"), ("SEGMENT_2", "main_content_2"),
   ("SEGMENT_3", "main_content_3"), ("SEGMENT_4", "main_content_4"),
   ("SEGMENT_5", "main_content_5"),
   ("OUTRO", "outro"), ("CONCLUSION", "outro"), ("CTA", "call_to_action")]

/-- Model of Python `dict.get` over the association list. -/
def mapLookup : List (String × String) → String → Option String
  | [], _ => none
  | (k, v) :: rest, key => if key = k then some v else mapLookup rest key

/-- Model of `section_type_map.get(tok, tok.lower())` applied to the
already-uppercased marker token, as done when a section is closed. -/
def mappedType (tok : String) : String :=
  (mapLookup section_type_map tok).getD (pyLower tok)

/-- The Section Type Normalizer: uppercase the raw token, look it up in
`section_type_map`, otherwise pass it through lower-cased. -/
def normalizeSectionType (tok : String) : String := mappedType (pyUpper tok)

/-- Loop state of the primary marker-based parser: `sections`,
`current_type`, `current_content`, `current_duration`, `current_b_roll` and
`parsing_b_roll`.  The Python variable `current_section` is always `None`
outside the append block (it is created and reset inside it), so it carries
no state and is not modelled. -/
structure PState where
  sections : List PSection
  currentType : Option String
  currentContent : List String
  currentDuration : Option String
  currentBRoll : List String
  parsingBRoll : Bool
deriving DecidableEq, Repr

/-- Initial primary-parser state. -/
def primaryInit : PState := ⟨[], none, [], none, [], false⟩

/-- Test `line.startswith("##") and line.endswith("##")`. -/
def isMarkerLine (l : String) : Bool := pyStartsWith l "##" && pyEndsWith l "##"

/-- Marker token extraction: `line.strip("#").strip().upper()`. -/
def markerToken (l : String) : String := pyUpper (pyStrip (pyStripHash l))

/-- The section record appended when the open section of type `ct` is closed:
type is mapped through `section_type_map`, content is the stripped join of the
accumulated lines, and the duration / b-roll keys are set only when truthy. -/
def finishSection (st : PState) (ct : String) : PSection :=
  { type := mappedType ct,
    content := pyStrip (joinNL st.currentContent),
    duration := if optTruthy st.currentDuration then st.currentDuration else none,
    b_roll := if st.currentBRoll.isEmpty then none else some st.currentBRoll }

/-- The save-previous-section block: append the finished section when
`current_content` is non-empty and reset the content, duration and b-roll
accumulators (`current_type` is left unchanged). -/
def flushState (st : PState) : PState :=
  match st.currentType with
  | some ct =>
    if st.currentContent.isEmpty then st
    else { st with
            sections := st.sections ++ [finishSection st ct],
            currentContent := [], currentDuration := none, currentBRoll := [] }
  | none => st

/-- Marker dispatch after the flush check: a DURATION marker only clears
`parsing_b_roll`, a B_ROLL marker only sets it, and any other marker becomes
the new `current_type`. -/
def applyMarker (st : PState) (marker : String) : PState :=
  if marker = "DURATION" then { st with parsingBRoll := false }
  else if marker = "B_ROLL" then { st with parsingBRoll := true }
  else { st with currentType := some marker, parsingBRoll := false }

/-- One iteration of the primary loop of `parse_script_sections` on a raw
input line. -/
def primaryStep (st : PState) (raw : String) : PState :=
  if pyStrip raw = "" then st
  else if isMarkerLine (pyStrip raw) then
    if optTruthy st.currentType
        && !(st.currentType == some (markerToken (pyStrip raw))) then
      if st.currentType == some "DURATION" || st.currentType == some "B_ROLL" then
        st
      else applyMarker (flushState st) (markerToken (pyStrip raw))
    else applyMarker st (markerToken (pyStrip raw))
  else if st.parsingBRoll then
    if pyStartsWith (pyStrip raw) "-" then
      { st with currentBRoll := st.currentBRoll ++ [pyStrip (pyLstripDash (pyStrip raw))] }
    else { st with currentBRoll := st.currentBRoll ++ [pyStrip raw] }
  else if st.currentType == some "DURATION"
      || (optTruthy st.currentType && !(optTruthy st.currentDuration)
          && pyStartsWith (pyLower (pyStrip raw)) "duration") then
    { st with currentDuration := some (pyStrip raw), currentType := some "CONTENT" }
  else if optTruthy st.currentType then
    { st with currentContent := st.currentContent ++ [pyStrip raw] }
  else st

/-- The handle-the-last-section block after the loop. -/
def primaryFinal (st : PState) : List PSection :=
  if optTruthy st.currentType && !st.currentContent.isEmpty then
    match st.currentType with
    | some ct => st.sections ++ [finishSection st ct]
    | none => st.sections
  else st.sections

/-- Sections produced by the primary marker-based parse, before any fallback. -/
def primaryParse (s : String) : List PSection :=
  primaryFinal ((pySplitNL s).foldl primaryStep primaryInit)

/-- The `section_patterns` cue table of `fallback_parse_script`.  In each of
the source regexes every non-literal part (`\[?`, `\]?`, `(DUCTION)?`,
`[\s_-]?`, `(CONTENT)?`, `(\d+)?`) is optional, so `re.search` with
`IGNORECASE` succeeds exactly when the literal core written here occurs in the
line as a case-insensitive substring. -/
def section_patterns : List (String × String) :=
  [("HOOK", "hook"), ("INTRO", "intro"), ("MAIN", "main_content"),
   ("SEGMENT", "main_content"), ("OUTRO", "outro"), ("CONCLUSION", "outro"),
   ("CTA", "call_to_action")]

/-- First cue pattern matching the line, in declaration order (the loop
breaks at the first match). -/
def findCue : List (String × String) → String → Option String
  | [], _ => none
  | (cue, ty) :: rest, line =>
    if pyContains (pyUpper line) cue then some ty else findCue rest line

/-- Section type assigned to a fallback header line, if the line matches any
cue pattern. -/
def fallbackHeaderType (line : String) : Option String := findCue section_patterns line

/-- Loop state of the fallback parser. -/
structure FState where
  sections : List PSection
  currentType : Option String
  currentContent : List String
deriving DecidableEq, Repr

/-- Initial fallback-parser state. -/
def fallbackInit : FState := ⟨[], none, []⟩

/-- The save-previous-section block of the fallback parser, used both when a
new header is found and after the loop. -/
def fallbackFlush (st : FState) : List PSection :=
  if optTruthy st.currentType && !st.currentContent.isEmpty then
    match st.currentType with
    | some ct => st.sections ++ [{ type := ct, content := pyStrip (joinNL st.currentContent) }]
    | none => st.sections
  else st.sections

/-- One iteration of the fallback loop on a raw input line. -/
def fallbackStep (st : FState) (raw : String) : FState :=
  if pyStrip raw = "" then st
  else
    match fallbackHeaderType (pyStrip raw) with
    | some ty => { sections := fallbackFlush st, currentType := some ty, currentContent := [] }
    | none =>
      if optTruthy st.currentType then
        { st with currentContent := st.currentContent ++ [pyStrip raw] }
      else st

/-- Sections produced by the fallback loop including its trailing flush,
before the catch-all. -/
def fallbackSections (s : String) : List PSection :=
  fallbackFlush ((pySplitNL s).foldl fallbackStep fallbackInit)

/-- The single catch-all section covering the whole trimmed input. -/
def catchAllSection (s : String) : PSection :=
  { type := "full_script", content := pyStrip s }

/-- Model of `fallback_parse_script`. -/
def fallback_parse_script (s : String) : List PSection :=
  if (fallbackSections s).isEmpty then [catchAllSection s] else fallbackSections s

/-- Model of `parse_script_sections`. -/
def parse_script_sections (s : String) : List PSection :=
  if (primaryParse s).isEmpty then fallback_parse_script s else primaryParse s

/-! Helper lemmas about the string primitives. -/

/-- Stripping yields the empty list exactly when every character is whitespace. -/
theorem stripList_eq_nil_iff {l : List Char} :
    stripList l = [] ↔ ∀ c ∈ l, c.isWhitespace = true := by
  unfold stripList
  rw [List.rdropWhile_eq_nil_iff]
  constructor
  · intro h c hc
    rcases List.mem_append.mp
        (by rw [List.takeWhile_append_dropWhile Char.isWhitespace l]; exact hc) with h1 | h1
    · exact List.mem_takeWhile_imp h1
    · exact h c h1
  · intro h c hc
    exact h c ((List.dropWhile_suffix _).sublist.subset hc)

/-- Stripping is idempotent. -/
theorem stripList_idem (l : List Char) : stripList (stripList l) = stripList l := by
  unfold stripList
  have h1 : List.dropWhile Char.isWhitespace
      (List.rdropWhile Char.isWhitespace (List.dropWhile Char.isWhitespace l)) =
      List.rdropWhile Char.isWhitespace (List.dropWhile Char.isWhitespace l) := by
    rw [List.dropWhile_eq_self_iff]
    intro hl
    have hpre := List.rdropWhile_prefix Char.isWhitespace (List.dropWhile Char.isWhitespace l)
    have hlen : 0 < (List.dropWhile Char.isWhitespace l).length :=
      Nat.lt_of_lt_of_le hl hpre.length_le
    have hget : (List.rdropWhile Char.isWhitespace
        (List.dropWhile Char.isWhitespace l)).get ⟨0, hl⟩ =
        (List.dropWhile Char.isWhitespace l).get ⟨0, hlen⟩ := by
      simpa [List.get_eq_getElem] using hpre.getElem (n := 0) hl
    rw [hget]
    exact List.dropWhile_get_zero_not _ _ hlen
  rw [h1, List.rdropWhile_idempotent]

/-- String version of idempotence of `strip`. -/
theorem pyStrip_idem (s : String) : pyStrip (pyStrip s) = pyStrip s := by
  simp [pyStrip, stripList_idem]

/-- A string strips to `""` exactly when it is all whitespace. -/
theorem pyStrip_eq_empty_iff {s : String} :
    pyStrip s = "" ↔ ∀ c ∈ s.data, c.isWhitespace = true := by
  rw [String.ext_iff]
  show stripList s.data = [] ↔ _
  exact stripList_eq_nil_iff

/-- Every character of a piece of `splitChar` is a character of the input. -/
theorem mem_of_mem_splitChar {sep : Char} :
    ∀ {l piece : List Char} {c : Char}, piece ∈ splitChar sep l → c ∈ piece → c ∈ l := by
  intro l
  induction l with
  | nil =>
    intro piece c hp hc
    simp [splitChar] at hp
    subst hp
    simp at hc
  | cons a as ih =>
    intro piece c hp hc
    by_cases ha : a = sep
    · rw [splitChar, if_pos ha] at hp
      rcases List.mem_cons.mp hp with h1 | h1
      · subst h1; simp at hc
      · exact List.mem_cons_of_mem a (ih h1 hc)
    · rw [splitChar, if_neg ha] at hp
      cases hsp : splitChar sep as with
      | nil =>
        rw [hsp] at hp; simp at hp; subst hp
        simp at hc; subst hc
        exact List.mem_cons_self _ _
      | cons p r =>
        rw [hsp] at hp
        rcases List.mem_cons.mp hp with h1 | h1
        · subst h1
          rcases List.mem_cons.mp hc with h2 | h2
          · subst h2; exact List.mem_cons_self _ _
          · exact List.mem_cons_of_mem a (ih (hsp ▸ List.mem_cons_self p r) h2)
        · exact List.mem_cons_of_mem a (ih (hsp ▸ List.mem_cons_of_mem p h1) hc)

/-- A character of the first line is a character of the joined text. -/
theorem mem_joinNLData_head {c : Char} {l : List Char} {ls : List (List Char)}
    (hc : c ∈ l) : c ∈ joinNLData (l :: ls) := by
  cases ls with
  | nil => simpa [joinNLData] using hc
  | cons l2 ls2 => simp [joinNLData]; exact Or.inl hc

/-- Joining a non-empty list of non-blank stripped lines and stripping the
result is non-empty. -/
theorem strip_join_ne_empty {ls : List String}
    (hne : ls ≠ []) (hclean : ∀ l ∈ ls, pyStrip l = l ∧ l ≠ "") :
    pyStrip (joinNL ls) ≠ "" := by
  cases ls with
  | nil => exact absurd rfl hne
  | cons l0 rest =>
    intro hcontra
    have hall := pyStrip_eq_empty_iff.mp hcontra
    have h0 := hclean l0 (List.mem_cons_self _ _)
    have h0ne : ¬∀ c ∈ l0.data, c.isWhitespace = true := by
      intro hws
      have : pyStrip l0 = "" := pyStrip_eq_empty_iff.mpr hws
      rw [h0.1] at this
      exact h0.2 this
    rcases not_forall.mp h0ne with ⟨c, hc⟩
    rcases Classical.not_imp.mp hc with ⟨hcmem, hcws⟩
    exact hcws (hall c (mem_joinNLData_head hcmem))

/-- Folding a function that fixes the initial state leaves it fixed. -/
theorem foldl_fixed {α β : Type} {f : β → α → β} {b : β} :
    ∀ {l : List α}, (∀ a ∈ l, f b a = b) → l.foldl f b = b := by
  intro l
  induction l with
  | nil => intro _; rfl
  | cons a as ih =>
    intro h
    rw [List.foldl_cons, h a (List.mem_cons_self _ _)]
    exact ih (fun x hx => h x (List.mem_cons_of_mem a hx))

/-- Folding preserves an invariant when every processed element allows the
step to preserve it. -/
theorem foldl_pres {α β : Type} {P : β → Prop} {Q : α → Prop} {f : β → α → β}
    (hstep : ∀ b a, Q a → P b → P (f b a)) :
    ∀ (l : List α) (b : β), (∀ a ∈ l, Q a) → P b → P (l.foldl f b) := by
  intro l
  induction l with
  | nil => intro b _ hb; exact hb
  | cons a as ih =>
    intro b hq hb
    rw [List.foldl_cons]
    exact ih _ (fun x hx => hq x (List.mem_cons_of_mem a hx))
      (hstep b a (hq a (List.mem_cons_self _ _)) hb)

/-! Lemmas about ASCII case mapping and the section-type normalizer. -/

/-- Packing a valid codepoint and unpacking it is the identity. -/
theorem char_toNat_ofNat {n : Nat} (h : n.isValidChar) : (Char.ofNat n).toNat = n := by
  rw [Char.ofNat, dif_pos h]
  rfl

/-- Upper-casing, lower-casing and upper-casing again is the same as
upper-casing once. -/
theorem char_up_down_up (c : Char) : c.toUpper.toLower.toUpper = c.toUpper := by
  simp only [Char.toUpper, Char.toLower]
  by_cases h : c.toNat ≥ 97 ∧ c.toNat ≤ 122
  · rw [if_pos h]
    have h1 : (Char.ofNat (c.toNat - 32)).toNat = c.toNat - 32 :=
      char_toNat_ofNat (Or.inl (by omega))
    rw [h1, if_pos (by omega : c.toNat - 32 ≥ 65 ∧ c.toNat - 32 ≤ 90)]
    have h2 : (Char.ofNat (c.toNat - 32 + 32)).toNat = c.toNat - 32 + 32 :=
      char_toNat_ofNat (Or.inl (by omega))
    rw [h2, if_pos (by omega : c.toNat - 32 + 32 ≥ 97 ∧ c.toNat - 32 + 32 ≤ 122)]
    have h5 : c.toNat - 32 + 32 - 32 = c.toNat - 32 := by omega
    rw [h5]
  · rw [if_neg h]
    by_cases h2 : c.toNat ≥ 65 ∧ c.toNat ≤ 90
    · rw [if_pos h2]
      have h3 : (Char.ofNat (c.toNat + 32)).toNat = c.toNat + 32 :=
        char_toNat_ofNat (Or.inl (by omega))
      rw [h3, if_pos (by omega : c.toNat + 32 ≥ 97 ∧ c.toNat + 32 ≤ 122)]
      have h4 : c.toNat + 32 - 32 = c.toNat := by omega
      rw [h4, Char.ofNat_toNat]
    · rw [if_neg h2, if_neg h]

/-- String version: upper, lower, upper collapses to upper. -/
theorem pyUpper_lower_upper (t : String) : pyUpper (pyLower (pyUpper t)) = pyUpper t := by
  simp only [pyUpper, pyLower, List.map_map]
  exact congrArg String.mk (List.map_congr_left (fun c _ => char_up_down_up c))

/-- A successful association-list lookup returns a stored pair. -/
theorem mapLookup_mem {v : String} :
    ∀ {m : List (String × String)} {k : String}, mapLookup m k = some v → (k, v) ∈ m := by
  intro m
  induction m with
  | nil => intro k h; simp [mapLookup] at h
  | cons p rest ih =>
    intro k h
    rw [mapLookup] at h
    by_cases hk : k = p.1
    · rw [if_pos hk] at h
      have hv2 : p.2 = v := Option.some_inj.mp h
      have hpv : (k, v) = p := Prod.ext hk hv2.symm
      rw [hpv]
      exact List.mem_cons_self _ _
    · rw [if_neg hk] at h
      exact List.mem_cons_of_mem _ (ih h)

/-- Every value stored in `section_type_map` is a fixed point of the
normalizer. -/
theorem norm_fixes_map_values :
    ∀ p ∈ section_type_map, normalizeSectionType p.2 = p.2 := by decide

/-- The canonical section types named by the specification. -/
def canonicalSectionTypes : List String :=
  ["hook", "intro", "main_content", "main_content_1", "main_content_2",
   "main_content_3", "main_content_4", "main_content_5", "outro",
   "call_to_action"]

/-- Helper: the normalizer is idempotent on every token. -/
theorem normalizeSectionType_idem (t : String) :
    normalizeSectionType (normalizeSectionType t) = normalizeSectionType t := by
  cases hlk : mapLookup section_type_map (pyUpper t) with
  | some v =>
    have h1 : normalizeSectionType t = v := by
      simp [normalizeSectionType, mappedType, hlk]
    rw [h1]
    exact norm_fixes_map_values (pyUpper t, v) (mapLookup_mem hlk)
  | none =>
    have h1 : normalizeSectionType t = pyLower (pyUpper t) := by
      simp [normalizeSectionType, mappedType, hlk]
    rw [h1]
    have h2 : pyUpper (pyLower (pyUpper t)) = pyUpper t := pyUpper_lower_upper t
    simp [normalizeSectionType, mappedType, h2, hlk]

/-- C9: the Section Type Normalizer is a total deterministic function; every
canonical type (including the numbered segment types and the lower-cased
passthrough produced for unknown tokens) is a fixed point, so applying the
normalizer twice to any token yields the same result as applying it once. -/
theorem normalizer_idempotent_c9 :
    (canonicalSectionTypes.all fun c => normalizeSectionType c == c) = true ∧
    ∀ t : String, normalizeSectionType (normalizeSectionType t) = normalizeSectionType t :=
  ⟨by decide, normalizeSectionType_idem⟩

/-- C7: the marker round-trip acceptance test: two marker-delimited sections
parse into exactly the two expected section records. -/
theorem marker_round_trip_c7 :
    parse_script_sections "##HOOK##\nLine one.\nLine two.\n##OUTRO##\nFinal line." =
      [{ type := "hook", content := "Line one.\nLine two." },
       { type := "outro", content := "Final line." }] := by decide

/-- C3 (code behaviour at the claimed input): on the spec's duration-capture
example the code emits two `hook` sections, neither carrying any duration:
the `##DURATION##` marker closes the open section (the flush-skip test
examines `current_type`, which is never `"DURATION"`), and the following line
`15 seconds` is accumulated as ordinary content of a new section. -/
theorem duration_marker_behavior_c3 :
    parse_script_sections "##HOOK##\nHi there.\n##DURATION##\n15 seconds\nMore hook text." =
      [{ type := "hook", content := "Hi there." },
       { type := "hook", content := "15 seconds\nMore hook text." }] := by decide

/-- C4 (code behaviour at the claimed input): a `##B_ROLL##` block following a
section does not attach its bullets to that preceding section: the marker
flushes the section first, so when the block is last the captured bullets are
dropped, and when another marker follows they attach to the next section. -/
theorem b_roll_attachment_behavior_c4 :
    parse_script_sections "##HOOK##\nSome content.\n##B_ROLL##\n- Shot A\n- Shot B" =
      [{ type := "hook", content := "Some content." }] ∧
    parse_script_sections "##HOOK##\nContent.\n##B_ROLL##\n- Shot A\n- Shot B\n##OUTRO##\nBye." =
      [{ type := "hook", content := "Content." },
       { type := "outro", content := "Bye.", b_roll := some ["Shot A", "Shot B"] }] := by
  exact ⟨by decide, by decide⟩

/-- C2 counterexample: the empty input does not yield an empty sequence; it
yields the single catch-all section with empty content. -/
theorem empty_input_counterexample_c2 :
    parse_script_sections "" = [{ type := "full_script", content := "" }] ∧
    parse_script_sections "" ≠ [] := by
  exact ⟨by decide, by decide⟩

/-- C8 counterexample: a line that carries a bracketed cue and inline content
is consumed whole as a header, so the input consisting of exactly that line
produces only the catch-all section and no `intro` section at all. -/
theorem fallback_cue_inline_counterexample_c8 :
    parse_script_sections "[INTRO] Welcome." =
      [{ type := "full_script", content := "[INTRO] Welcome." }] ∧
    ∀ sec ∈ parse_script_sections "[INTRO] Welcome.", sec.type ≠ "intro" := by
  exact ⟨by decide, by decide⟩

/-- C8 amended: when the bracketed cue stands on its own line and the content
follows on the next line, the fallback produces the expected intro section. -/
theorem fallback_cue_line_amended_c8 :
    parse_script_sections "[INTRO]\nWelcome." =
      [{ type := "intro", content := "Welcome." }] := by decide

/-- C10 counterexample: a cue-containing line falls back into the catch-all
when no section accumulates content, so its text does appear in an output
section's content. -/
theorem fallback_catchall_counterexample_c10 :
    fallbackHeaderType "Intro to cooking" = some "intro" ∧
    fallback_parse_script "Intro to cooking" =
      [{ type := "full_script", content := "Intro to cooking" }] := by
  exact ⟨by decide, by decide⟩

/-! No-op lemmas for lines that carry no structure, and the catch-all path. -/

/-- A line that strips to blank is skipped by the primary loop. -/
theorem primaryStep_blank {st : PState} {raw : String} (h : pyStrip raw = "") :
    primaryStep st raw = st := by
  unfold primaryStep
  simp [h]

/-- A non-marker line leaves the initial primary state unchanged. -/
theorem primaryStep_init_noop {raw : String}
    (h : isMarkerLine (pyStrip raw) = false) :
    primaryStep primaryInit raw = primaryInit := by
  by_cases hb : pyStrip raw = ""
  · exact primaryStep_blank hb
  · unfold primaryStep
    simp [hb, h, primaryInit, optTruthy]

/-- A line with no cue leaves the initial fallback state unchanged. -/
theorem fallbackStep_init_noop {raw : String}
    (h : fallbackHeaderType (pyStrip raw) = none) :
    fallbackStep fallbackInit raw = fallbackInit := by
  by_cases hb : pyStrip raw = ""
  · unfold fallbackStep
    simp [hb]
  · unfold fallbackStep
    simp [hb, h, fallbackInit, optTruthy]

/-- With no marker lines the primary parse yields no sections. -/
theorem primaryParse_no_markers {s : String}
    (hm : ∀ raw ∈ pySplitNL s, isMarkerLine (pyStrip raw) = false) :
    primaryParse s = [] := by
  unfold primaryParse
  rw [foldl_fixed (fun raw hraw => primaryStep_init_noop (hm raw hraw))]
  decide

/-- With no cue lines the fallback loop yields no sections. -/
theorem fallbackSections_no_headers {s : String}
    (hf : ∀ raw ∈ pySplitNL s, fallbackHeaderType (pyStrip raw) = none) :
    fallbackSections s = [] := by
  unfold fallbackSections
  rw [foldl_fixed (fun raw hraw => fallbackStep_init_noop (hf raw hraw))]
  decide

/-- An input with no markers and no cues degrades to the single catch-all. -/
theorem parse_catchall_of_no_structure (s : String)
    (hm : ∀ raw ∈ pySplitNL s, isMarkerLine (pyStrip raw) = false)
    (hf : ∀ raw ∈ pySplitNL s, fallbackHeaderType (pyStrip raw) = none) :
    parse_script_sections s = [catchAllSection s] := by
  unfold parse_script_sections fallback_parse_script
  rw [primaryParse_no_markers hm, fallbackSections_no_headers hf]
  simp

/-- C6: an input with no marker lines and no line matching any fallback cue
parses to exactly one `full_script` section whose content is the trimmed
input (the model is a total function, so no error can be raised). -/
theorem unstructured_catchall_c6 (s : String)
    (hm : ∀ raw ∈ pySplitNL s, isMarkerLine (pyStrip raw) = false)
    (hf : ∀ raw ∈ pySplitNL s, fallbackHeaderType (pyStrip raw) = none) :
    parse_script_sections s = [{ type := "full_script", content := pyStrip s }] :=
  parse_catchall_of_no_structure s hm hf

/-- C6 witness: a concrete unstructured paragraph. -/
theorem unstructured_catchall_c6_witness :
    (∀ raw ∈ pySplitNL "Just a plain paragraph of text.",
        isMarkerLine (pyStrip raw) = false) ∧
    (∀ raw ∈ pySplitNL "Just a plain paragraph of text.",
        fallbackHeaderType (pyStrip raw) = none) ∧
    parse_script_sections "Just a plain paragraph of text." =
      [{ type := "full_script", content := pyStrip "Just a plain paragraph of text." }] :=
  ⟨by decide, by decide, unstructured_catchall_c6 _ (by decide) (by decide)⟩

/-- C2 amended: a whitespace-only (in particular empty) input produces the
single catch-all section with empty content, not an empty sequence. -/
theorem empty_input_catchall_c2 (s : String) (h : pyStrip s = "") :
    parse_script_sections s = [{ type := "full_script", content := "" }] := by
  have hall : ∀ c ∈ s.data, c.isWhitespace = true := pyStrip_eq_empty_iff.mp h
  have hlines : ∀ raw ∈ pySplitNL s, pyStrip raw = "" := by
    intro raw hraw
    rcases List.mem_map.mp hraw with ⟨piece, hpiece, hr⟩
    apply pyStrip_eq_empty_iff.mpr
    intro c hc
    have hcp : c ∈ piece := by rw [← hr] at hc; exact hc
    exact hall c (mem_of_mem_splitChar hpiece hcp)
  have hm : ∀ raw ∈ pySplitNL s, isMarkerLine (pyStrip raw) = false := by
    intro raw hraw; rw [hlines raw hraw]; decide
  have hf : ∀ raw ∈ pySplitNL s, fallbackHeaderType (pyStrip raw) = none := by
    intro raw hraw; rw [hlines raw hraw]; decide
  rw [parse_catchall_of_no_structure s hm hf]
  simp [catchAllSection, h]

/-- C2 amended witness: a concrete whitespace-only input. -/
theorem empty_input_catchall_c2_witness :
    pyStrip " \n\t " = "" ∧
    parse_script_sections " \n\t " = [{ type := "full_script", content := "" }] :=
  ⟨by decide, empty_input_catchall_c2 _ (by decide)⟩

/-- C1: for every non-empty input the parser returns at least one section,
degrading from the primary parse to the fallback parse and finally to the
single catch-all section. -/
theorem parse_script_sections_total_c1 (s : String) (_h : s ≠ "") :
    parse_script_sections s ≠ [] ∧
    (primaryParse s = [] → parse_script_sections s = fallback_parse_script s) ∧
    (fallbackSections s = [] → fallback_parse_script s = [catchAllSection s]) := by
  refine ⟨?_, ?_, ?_⟩
  · unfold parse_script_sections fallback_parse_script
    by_cases h1 : (primaryParse s).isEmpty
    · rw [if_pos h1]
      by_cases h2 : (fallbackSections s).isEmpty
      · rw [if_pos h2]; simp
      · rw [if_neg h2]
        simpa [List.isEmpty_iff] using h2
    · rw [if_neg h1]
      simpa [List.isEmpty_iff] using h1
  · intro hp
    unfold parse_script_sections
    rw [hp]
    simp
  · intro hfb
    unfold fallback_parse_script
    rw [hfb]
    simp

/-- C1 witness: a concrete non-empty input. -/
theorem parse_script_sections_total_c1_witness :
    ("x" : String) ≠ "" ∧
    (parse_script_sections "x" ≠ [] ∧
     (primaryParse "x" = [] → parse_script_sections "x" = fallback_parse_script "x") ∧
     (fallbackSections "x" = [] → fallback_parse_script "x" = [catchAllSection "x"])) :=
  ⟨by decide, parse_script_sections_total_c1 "x" (by decide)⟩

/-! Invariant: all accumulated content lines are clean, so every emitted
section has non-blank content. -/

/-- A clean line: already stripped and non-blank. -/
def cleanLine (l : String) : Prop := pyStrip l = l ∧ l ≠ ""

/-- Invariant of the primary loop. -/
def pInv (st : PState) : Prop :=
  (∀ l ∈ st.currentContent, cleanLine l) ∧ ∀ sec ∈ st.sections, sec.content ≠ ""

/-- A stripped non-blank line is clean. -/
theorem cleanLine_strip {raw : String} (h : pyStrip raw ≠ "") : cleanLine (pyStrip raw) :=
  ⟨pyStrip_idem raw, h⟩

/-- A section finished from clean non-empty content has non-blank content. -/
theorem finishSection_content_ne {st : PState} {ct : String}
    (hclean : ∀ l ∈ st.currentContent, cleanLine l)
    (hne : st.currentContent ≠ []) :
    (finishSection st ct).content ≠ "" :=
  strip_join_ne_empty hne hclean

/-- The flush block preserves the invariant. -/
theorem flushState_inv {st : PState} (h : pInv st) : pInv (flushState st) := by
  unfold flushState
  split
  next ct hct =>
    by_cases hcc : st.currentContent.isEmpty
    · rw [if_pos hcc]; exact h
    · rw [if_neg hcc]
      constructor
      · intro l hl; simp at hl
      · intro sec hsec
        rcases List.mem_append.mp hsec with hs | hs
        · exact h.2 sec hs
        · have hs2 : sec = finishSection st ct := by simpa using hs
          rw [hs2]
          exact finishSection_content_ne h.1 (by simpa [List.isEmpty_iff] using hcc)
  next hct => exact h

/-- Marker dispatch preserves the invariant (it only touches the mode
fields). -/
theorem applyMarker_inv {st : PState} {m : String} (h : pInv st) : pInv (applyMarker st m) := by
  unfold applyMarker
  split_ifs <;> exact h

/-- One primary step preserves the invariant. -/
theorem primaryStep_inv {st : PState} {raw : String} (h : pInv st) :
    pInv (primaryStep st raw) := by
  unfold primaryStep
  split_ifs with h1 h2 h3 h4 h5 h6 h7
  · exact h
  · exact h
  · exact applyMarker_inv (flushState_inv h)
  · exact applyMarker_inv h
  · exact h
  · exact h
  · exact h
  · refine ⟨?_, h.2⟩
    intro l hl
    rcases List.mem_append.mp hl with hm | hm
    · exact h.1 l hm
    · have : l = pyStrip raw := by simpa using hm
      rw [this]
      exact cleanLine_strip h1
  · exact h

/-- The fold of the primary loop satisfies the invariant. -/
theorem primaryFold_inv (lines : List String) :
    pInv (lines.foldl primaryStep primaryInit) := by
  apply foldl_pres (Q := fun _ => True) (fun st raw _ hp => primaryStep_inv hp) lines
      primaryInit (fun _ _ => trivial)
  constructor
  · intro l hl; simp [primaryInit] at hl
  · intro sec hsec; simp [primaryInit] at hsec

/-- Every section produced by the primary parse has non-blank content. -/
theorem primaryParse_content_ne (s : String) :
    ∀ sec ∈ primaryParse s, sec.content ≠ "" := by
  have hinv := primaryFold_inv (pySplitNL s)
  unfold primaryParse primaryFinal
  by_cases hc : optTruthy ((pySplitNL s).foldl primaryStep primaryInit).currentType
      && !((pySplitNL s).foldl primaryStep primaryInit).currentContent.isEmpty
  · rw [if_pos hc]
    cases hct : ((pySplitNL s).foldl primaryStep primaryInit).currentType with
    | none => exact hinv.2
    | some ct =>
      intro sec hsec
      rcases List.mem_append.mp hsec with hs | hs
      · exact hinv.2 sec hs
      · have hs2 : sec = finishSection ((pySplitNL s).foldl primaryStep primaryInit) ct := by
          simpa using hs
        rw [hs2]
        apply finishSection_content_ne hinv.1
        have := (Bool.and_eq_true _ _).mp hc
        simpa [List.isEmpty_iff] using this.2
  · rw [if_neg hc]
    exact hinv.2

/-! Invariant machinery for the fallback parser: every emitted section is
built from clean, cue-free lines drawn from the line universe `U`. -/

/-- A line acceptable as fallback content: no cue, stripped, non-blank, and
drawn from `U`. -/
def fallbackContentLine (U : String → Prop) (l : String) : Prop :=
  fallbackHeaderType l = none ∧ pyStrip l = l ∧ l ≠ "" ∧ U l

/-- A section whose content is the stripped join of a non-empty list of
acceptable content lines. -/
def goodSec (U : String → Prop) (sec : PSection) : Prop :=
  ∃ ls, ls ≠ [] ∧ (∀ l ∈ ls, fallbackContentLine U l) ∧
    sec.content = pyStrip (joinNL ls)

/-- Invariant of the fallback loop. -/
def fInv (U : String → Prop) (st : FState) : Prop :=
  (∀ l ∈ st.currentContent, fallbackContentLine U l) ∧
  ∀ sec ∈ st.sections, goodSec U sec

/-- The fallback flush emits only good sections. -/
theorem fallbackFlush_good {U : String → Prop} {st : FState} (h : fInv U st) :
    ∀ sec ∈ fallbackFlush st, goodSec U sec := by
  unfold fallbackFlush
  by_cases hc : optTruthy st.currentType && !st.currentContent.isEmpty
  · rw [if_pos hc]
    split
    next ct hct =>
      intro sec hsec
      rcases List.mem_append.mp hsec with hs | hs
      · exact h.2 sec hs
      · have hs2 : sec = { type := ct, content := pyStrip (joinNL st.currentContent) } := by
          simpa using hs
        refine ⟨st.currentContent, ?_, h.1, by rw [hs2]⟩
        have := (Bool.and_eq_true _ _).mp hc
        simpa [List.isEmpty_iff] using this.2
    next hct => exact h.2
  · rw [if_neg hc]
    exact h.2

/-- One fallback step preserves the invariant, provided the stripped line
lies in the universe. -/
theorem fallbackStep_inv {U : String → Prop} {st : FState} {raw : String}
    (hU : U (pyStrip raw)) (h : fInv U st) : fInv U (fallbackStep st raw) := by
  unfold fallbackStep
  by_cases hb : pyStrip raw = ""
  · rw [if_pos hb]; exact h
  · rw [if_neg hb]
    cases hhd : fallbackHeaderType (pyStrip raw) with
    | some ty =>
      show fInv U { sections := fallbackFlush st, currentType := some ty, currentContent := [] }
      constructor
      · intro l hl; simp at hl
      · exact fallbackFlush_good h
    | none =>
      show fInv U (if optTruthy st.currentType = true then
        { st with currentContent := st.currentContent ++ [pyStrip raw] } else st)
      by_cases hot : optTruthy st.currentType
      · rw [if_pos hot]
        refine ⟨?_, h.2⟩
        intro l hl
        rcases List.mem_append.mp hl with hm | hm
        · exact h.1 l hm
        · have : l = pyStrip raw := by simpa using hm
          rw [this]
          exact ⟨hhd, pyStrip_idem raw, hb, hU⟩
      · rw [if_neg hot]
        exact h

/-- The fold of the fallback loop satisfies the invariant for the universe of
stripped input lines. -/
theorem fallbackFold_inv (lines : List String) :
    fInv (fun l => l ∈ lines.map pyStrip) (lines.foldl fallbackStep fallbackInit) := by
  apply foldl_pres (Q := fun raw => raw ∈ lines)
      (fun st raw hq hp => fallbackStep_inv (List.mem_map_of_mem pyStrip hq) hp)
      lines fallbackInit (fun _ hx => hx)
  constructor
  · intro l hl; simp [fallbackInit] at hl
  · intro sec hsec; simp [fallbackInit] at hsec

/-- Every section of the fallback loop (trailing flush included) is good. -/
theorem fallbackSections_good (s : String) :
    ∀ sec ∈ fallbackSections s,
      goodSec (fun l => l ∈ (pySplitNL s).map pyStrip) sec :=
  fallbackFlush_good (fallbackFold_inv (pySplitNL s))

/-- A good section has non-blank content. -/
theorem goodSec_content_ne {U : String → Prop} {sec : PSection}
    (h : goodSec U sec) : sec.content ≠ "" := by
  rcases h with ⟨ls, hne, hls, hcontent⟩
  rw [hcontent]
  exact strip_join_ne_empty hne (fun l hl => ⟨(hls l hl).2.1, (hls l hl).2.2.1⟩)

/-! Append-only behaviour of the section lists. -/

/-- Marker dispatch never touches the section list. -/
theorem applyMarker_sections (st : PState) (m : String) :
    (applyMarker st m).sections = st.sections := by
  unfold applyMarker
  split_ifs <;> rfl

/-- The flush block only appends to the section list. -/
theorem flushState_sections (st : PState) :
    ∃ t, (flushState st).sections = st.sections ++ t := by
  unfold flushState
  split
  next ct hct =>
    by_cases hcc : st.currentContent.isEmpty
    · rw [if_pos hcc]; exact ⟨[], by simp⟩
    · rw [if_neg hcc]; exact ⟨[finishSection st ct], rfl⟩
  next hct => exact ⟨[], by simp⟩

/-- A primary step only appends to the section list. -/
theorem primaryStep_append_only (st : PState) (raw : String) :
    ∃ t, (primaryStep st raw).sections = st.sections ++ t := by
  unfold primaryStep
  split_ifs with h1 h2 h3 h4 h5 h6 h7
  · exact ⟨[], by simp⟩
  · exact ⟨[], by simp⟩
  · rcases flushState_sections st with ⟨t, ht⟩
    exact ⟨t, by rw [applyMarker_sections, ht]⟩
  · exact ⟨[], by rw [applyMarker_sections]; simp⟩
  · exact ⟨[], by simp⟩
  · exact ⟨[], by simp⟩
  · exact ⟨[], by simp⟩
  · exact ⟨[], by simp⟩
  · exact ⟨[], by simp⟩

/-- The fallback flush only appends to the section list. -/
theorem fallbackFlush_append (st : FState) :
    ∃ t, fallbackFlush st = st.sections ++ t := by
  unfold fallbackFlush
  by_cases hc : optTruthy st.currentType && !st.currentContent.isEmpty
  · rw [if_pos hc]
    split
    next ct hct =>
      exact ⟨[{ type := ct, content := pyStrip (joinNL st.currentContent) }], rfl⟩
    next hct => exact ⟨[], by simp⟩
  · rw [if_neg hc]; exact ⟨[], by simp⟩

/-- A fallback step only appends to the section list. -/
theorem fallbackStep_append_only (st : FState) (raw : String) :
    ∃ t, (fallbackStep st raw).sections = st.sections ++ t := by
  unfold fallbackStep
  by_cases hb : pyStrip raw = ""
  · rw [if_pos hb]; exact ⟨[], by simp⟩
  · rw [if_neg hb]
    cases hhd : fallbackHeaderType (pyStrip raw) with
    | some ty =>
      rcases fallbackFlush_append st with ⟨t, ht⟩
      exact ⟨t, ht⟩
    | none =>
      by_cases hot : optTruthy st.currentType
      · exact ⟨[], by simp [hot]⟩
      · exact ⟨[], by simp [hot]⟩

/-- C5: every section of the final output has non-blank content, or the
output is exactly the single catch-all section over the trimmed raw text;
and both parsing loops only ever append to their section lists (sections are
never merged or mutated after being appended). -/
theorem sections_content_invariant_c5 (s : String) :
    ((∀ sec ∈ parse_script_sections s, sec.content ≠ "") ∨
      parse_script_sections s = [{ type := "full_script", content := pyStrip s }]) ∧
    (∀ (st : PState) (raw : String),
      ∃ t, (primaryStep st raw).sections = st.sections ++ t) ∧
    (∀ (st : FState) (raw : String),
      ∃ t, (fallbackStep st raw).sections = st.sections ++ t) := by
  refine ⟨?_, primaryStep_append_only, fallbackStep_append_only⟩
  unfold parse_script_sections
  by_cases h1 : (primaryParse s).isEmpty
  · rw [if_pos h1]
    unfold fallback_parse_script
    by_cases h2 : (fallbackSections s).isEmpty
    · rw [if_pos h2]
      right
      rfl
    · rw [if_neg h2]
      left
      intro sec hsec
      exact goodSec_content_ne (fallbackSections_good s sec hsec)
  · rw [if_neg h1]
    left
    exact primaryParse_content_ne s

/-- C10 amended: whenever the fallback loop emits at least one section, every
output section's content is the stripped join of a non-empty list of
non-blank stripped input lines none of which matches any cue pattern (header
lines are consumed whole and never reach any content), and any run of
cue-free lines before the first header is dropped without affecting the
loop. -/
theorem fallback_header_consumption_c10 (s : String)
    (hne : fallbackSections s ≠ []) :
    (∀ sec ∈ fallback_parse_script s, ∃ ls, ls ≠ [] ∧
        (∀ l ∈ ls, fallbackHeaderType l = none ∧ pyStrip l = l ∧ l ≠ "" ∧
          l ∈ (pySplitNL s).map pyStrip) ∧
        sec.content = pyStrip (joinNL ls)) ∧
    (∀ pre rest : List String,
        (∀ raw ∈ pre, fallbackHeaderType (pyStrip raw) = none) →
        List.foldl fallbackStep fallbackInit (pre ++ rest) =
          List.foldl fallbackStep fallbackInit rest) := by
  constructor
  · intro sec hsec
    have hfp : fallback_parse_script s = fallbackSections s := by
      unfold fallback_parse_script
      rw [if_neg (by simpa [List.isEmpty_iff] using hne)]
    rw [hfp] at hsec
    rcases fallbackSections_good s sec hsec with ⟨ls, had, h2, h3⟩
    exact ⟨ls, had, fun l hl => h2 l hl, h3⟩
  · intro pre rest hpre
    rw [List.foldl_append]
    rw [foldl_fixed (fun raw hraw => fallbackStep_init_noop (hpre raw hraw))]

/-- C10 witness: a concrete input whose fallback loop emits a section. -/
theorem fallback_header_consumption_c10_witness :
    fallbackSections "[HOOK]\nSome body." ≠ [] ∧
    ((∀ sec ∈ fallback_parse_script "[HOOK]\nSome body.", ∃ ls, ls ≠ [] ∧
        (∀ l ∈ ls, fallbackHeaderType l = none ∧ pyStrip l = l ∧ l ≠ "" ∧
          l ∈ (pySplitNL "[HOOK]\nSome body.").map pyStrip) ∧
        sec.content = pyStrip (joinNL ls)) ∧
    (∀ pre rest : List String,
        (∀ raw ∈ pre, fallbackHeaderType (pyStrip raw) = none) →
        List.foldl fallbackStep fallbackInit (pre ++ rest) =
          List.foldl fallbackStep fallbackInit rest)) :=
  ⟨by decide, fallback_header_consumption_c10 "[HOOK]\nSome body." (by decide)⟩
